/-
  Verification of the VRC_TrueSkill_API harvesting and rating pipeline.

  Shallow embedding of the core of `build_ratings.js`, `grok_build_ratings.js`,
  `skills_gen.js` and `export_matches.js`: the paced transport's retry loop,
  the paginator, the per-division sorting and cross-division merge performed
  by the harvester, the match validity filter, and the incremental rating
  engine with its per-competitor history.

  The external `ts-trueskill` update (`env.rate`) is modelled as an opaque
  parameter `f : RateFn`: the claims settled here concern the control flow
  around it (purity, filtering, state/history bookkeeping), not the Gaussian
  arithmetic inside it.
-/
import Mathlib

namespace VRC

/-! ### Data model

A competitor's belief, as held by `ts-trueskill`'s `Rating` objects
(`mu`, `sigma`), with the default prior `new Rating()` having
`mu = 25`, `sigma = 25/3`. -/

structure Rating where
  mu : Rat
  sigma : Rat
deriving DecidableEq, Repr

/-- `new Rating()` — the prior default belief. -/
def defaultRating : Rating := ⟨25, 25 / 3⟩

/-- One entry of a competitor's history (`grok_build_ratings.js`, the objects
pushed onto `teamHistory`): match id, scheduled time, posterior `mu`/`sigma`. -/
structure Snapshot where
  match_id : Nat
  scheduled : Nat
  mu : Rat
  sigma : Rat
deriving DecidableEq, Repr

/-- An alliance ("side") of a match: its `color` string, its list of team
entries (`some n` when the entry carries a resolvable `team` link with team
number `n`, `none` when `t.team` is null), and its score. -/
structure Alliance where
  color : String
  teams : List (Option Nat)
  score : Int
deriving DecidableEq, Repr

/-- A match record as consumed from the API: id, round, `matchnum`
(match-sequence number), scheduled timestamp, and the alliances array. -/
structure Game where
  id : Nat
  round : Nat
  matchnum : Nat
  scheduled : Nat
  alliances : List Alliance
deriving DecidableEq, Repr

/-! ### Rating-engine state

`build_ratings.js` keeps `ratings : Map`, `grok_build_ratings.js` keeps
`teamRatings : Map` and `teamHistory : Map`, plus a `stats.rated` counter.
Maps are embedded as functions from team number. -/

structure RState where
  ratings : Nat → Option Rating
  history : Nat → List Snapshot
  rated : Nat

/-- The empty initial state (fresh `Map`s, zero counter). -/
def initState : RState :=
  { ratings := fun _ => none, history := fun _ => [], rated := 0 }

/-- `teamRatings.set(n, r)`. -/
def mapSet (m : Nat → Option Rating) (n : Nat) (r : Rating) : Nat → Option Rating :=
  fun k => if k = n then some r else m k

/-- `(teamHistory.get(n) || []).push(snap)`. -/
def histPush (h : Nat → List Snapshot) (n : Nat) (snap : Snapshot) :
    Nat → List Snapshot :=
  fun k => if k = n then h n ++ [snap] else h k

/-- `teamRatings.get(n) || new Rating()` — the current belief of team `n`. -/
def currentBelief (st : RState) (n : Nat) : Rating :=
  (st.ratings n).getD defaultRating

/-! ### The rating step (`doMatch` in `build_ratings.js`,
the inner loop of `rateSeason` in `grok_build_ratings.js`) -/

/-- `m.alliances.find(a => a.color === c)`. -/
def findAlliance (m : Game) (c : String) : Option Alliance :=
  m.alliances.find? (fun a => a.color == c)

/-- `alliance.teams.filter(t => t.team).map(t => t.team.number)` — only
entries with a resolvable `team` link count. -/
def allianceTeams (a : Alliance) : List Nat :=
  a.teams.filterMap id

/-- `red.score > blue.score ? [0,1] : red.score < blue.score ? [1,0] : [0,0]` —
the rank array handed to `env.rate` (rank 0 is the better rank). -/
def ranks (redScore blueScore : Int) : List Nat :=
  if redScore > blueScore then [0, 1]
  else if redScore < blueScore then [1, 0]
  else [0, 0]

/-- The shape of the external `env.rate` update on two two-member sides:
given the red pair's and the blue pair's current beliefs and the rank array,
produce the posterior pairs.  Opaque model of `ts-trueskill`. -/
def RateFn : Type :=
  Rating × Rating → Rating × Rating → List Nat → (Rating × Rating) × (Rating × Rating)

/-- One `ratings.set(n, r)` step. -/
def setOne (s : RState) (u : Nat × Rating) : RState :=
  { s with ratings := mapSet s.ratings u.1 u.2 }

/-- `rT.forEach((n,i) => ratings.set(n, new[i]))`, red first then blue:
fold the list of (team, posterior) updates into the ratings map. -/
def setRatings (st : RState) (ups : List (Nat × Rating)) : RState :=
  ups.foldl setOne st

/-- One history push: the snapshot for team `u.1` tagged with the match id
and scheduled time, carrying the posterior `mu`/`sigma` of `u.2`. -/
def pushOne (mid sched : Nat) (s : RState) (u : Nat × Rating) : RState :=
  { s with history := histPush s.history u.1 ⟨mid, sched, u.2.mu, u.2.sigma⟩ }

/-- The history-recording block of `rateSeason`: one snapshot pushed per
participant, red first then blue. -/
def pushHist (st : RState) (mid sched : Nat) (ups : List (Nat × Rating)) : RState :=
  ups.foldl (pushOne mid sched) st

/-- A fused set-then-push step for one participant; the code performs all
four `set`s before all four pushes, but since the two touch different maps
the fused per-participant form is pointwise equal (proved below). -/
def applyOne (mid sched : Nat) (s : RState) (u : Nat × Rating) : RState :=
  pushOne mid sched (setOne s u) u

/-- The guarded body once both alliances are present and both sides have
exactly two resolvable teams `[r1, r2]` / `[b1, b2]`. -/
def rateUpdate (f : RateFn) (st : RState) (m : Game) (red blue : Alliance)
    (r1 r2 b1 b2 : Nat) : RState :=
  let rR := ((st.ratings r1).getD defaultRating, (st.ratings r2).getD defaultRating)
  let bR := ((st.ratings b1).getD defaultRating, (st.ratings b2).getD defaultRating)
  let nw := f rR bR (ranks red.score blue.score)
  let ups := [(r1, nw.1.1), (r2, nw.1.2), (b1, nw.2.1), (b2, nw.2.2)]
  let st2 := pushHist (setRatings st ups) m.id m.scheduled ups
  { st2 with rated := st2.rated + 1 }

/-- One match through the rating engine.  Mirrors `doMatch`
(`build_ratings.js` lines 100–117) and the loop body of `rateSeason`
(`grok_build_ratings.js` lines 122–166): a match lacking a red or blue
alliance, or whose sides do not have exactly two resolvable team links,
is discarded with no change to beliefs or history. -/
def doMatch (f : RateFn) (st : RState) (m : Game) : RState :=
  match findAlliance m "red", findAlliance m "blue" with
  | some red, some blue =>
    match allianceTeams red, allianceTeams blue with
    | [r1, r2], [b1, b2] => rateUpdate f st m red blue r1 r2 b1 b2
    | _, _ => st
  | _, _ => st

/-- The validity filter, as a predicate: both sides present, each with
exactly two resolvable team links. -/
def validGame (m : Game) : Bool :=
  match findAlliance m "red", findAlliance m "blue" with
  | some red, some blue =>
    (allianceTeams red).length == 2 && (allianceTeams blue).length == 2
  | _, _ => false

/-- Processing an ordered match stream: the sequential fold of `doMatch`. -/
def processMatches (f : RateFn) (st : RState) (ms : List Game) : RState :=
  ms.foldl (doMatch f) st

/-! ### Harvester ordering (`grok_build_ratings.js` lines 108–120)

Each division's matches are sorted with the comparator
`(a, b) => (a.round - b.round) || (a.matchnum - b.matchnum)` (a stable sort),
and the divisions of one event are then combined with
`divisionMatches.flat()`. -/

/-- The order realised by the comparator
`(a.round - b.round) || (a.matchnum - b.matchnum)`. -/
def roundSeqLE (a b : Game) : Prop :=
  a.round < b.round ∨ (a.round = b.round ∧ a.matchnum ≤ b.matchnum)

instance : DecidableRel roundSeqLE := fun a b =>
  inferInstanceAs (Decidable (a.round < b.round ∨ (a.round = b.round ∧ a.matchnum ≤ b.matchnum)))

instance : IsTotal Game roundSeqLE where
  total a b := by
    unfold roundSeqLE
    rcases Nat.lt_trichotomy a.round b.round with h | h | h
    · exact Or.inl (Or.inl h)
    · rcases Nat.le_total a.matchnum b.matchnum with h2 | h2
      · exact Or.inl (Or.inr ⟨h, h2⟩)
      · exact Or.inr (Or.inr ⟨h.symm, h2⟩)
    · exact Or.inr (Or.inl h)

instance : IsTrans Game roundSeqLE where
  trans a b c hab hbc := by
    unfold roundSeqLE at *
    rcases hab with h1 | ⟨e1, l1⟩ <;> rcases hbc with h2 | ⟨e2, l2⟩
    · exact Or.inl (h1.trans h2)
    · exact Or.inl (e2 ▸ h1)
    · exact Or.inl (e1 ▸ h2)
    · exact Or.inr ⟨e1.trans e2, l1.trans l2⟩

/-- The per-division sort:
`matches.sort((a, b) => (a.round - b.round) || (a.matchnum - b.matchnum))`. -/
def divisionSort (ms : List Game) : List Game :=
  List.insertionSort roundSeqLE ms

/-- The event-level combination: sort each division, then `flat()`
(plain concatenation, `grok_build_ratings.js` line 119). -/
def eventMatches (dss : List (List Game)) : List Game :=
  (dss.map divisionSort).flatten

/-- Chronological order by scheduled time. -/
def schedLE (a b : Game) : Prop := a.scheduled ≤ b.scheduled

instance : DecidableRel schedLE := fun a b =>
  inferInstanceAs (Decidable (a.scheduled ≤ b.scheduled))

/-! ### Paced transport retry loop (`build_ratings.js` `apiFetch`, lines 34–56)

The remote service is modelled as the list of responses it would return to
the successive requests of one `apiFetch` call.  The embedding returns the
outcome (`.ok body` for a 2xx, `.error status` for the thrown
`API <status>` error) together with the number of requests attempted. -/

structure Resp where
  status : Nat
  body : Nat
deriving DecidableEq, Repr

/-- `res.ok`: status in the 2xx range. -/
def isOk (s : Nat) : Bool := 200 ≤ s && s < 300

/-- `res.status === 429 || res.status >= 500` — the retryable statuses. -/
def retryable (s : Nat) : Bool := s == 429 || 500 ≤ s

/-- The body of the `for (attempt = 0; attempt <= MAX_RETRIES; attempt++)`
loop: a 2xx returns the payload; a retryable status with `attempt <
MAX_RETRIES` backs off and continues; anything else throws.  An exhausted
response list is a model artifact reported as `(.error 0, 0)` (the real
service always answers). -/
def apiFetchGo (maxRetries : Nat) : Nat → List Resp → Except Nat Nat × Nat
  | _, [] => (Except.error 0, 0)
  | attempt, r :: rest =>
    if isOk r.status then (Except.ok r.body, 1)
    else if retryable r.status && attempt < maxRetries then
      let out := apiFetchGo maxRetries (attempt + 1) rest
      (out.1, out.2 + 1)
    else (Except.error r.status, 1)

/-- `apiFetch` of `build_ratings.js`: run the retry loop from attempt 0
with retry cap `maxRetries`, against response sequence `resps`. -/
def apiFetch (maxRetries : Nat) (resps : List Resp) : Except Nat Nat × Nat :=
  apiFetchGo maxRetries 0 resps

/-! ### Paginators

Responses of a collection endpoint: a `data` array (items abstracted to
`Nat`) and pagination metadata, possibly absent. -/

structure Meta where
  current_page : Nat
  last_page : Nat
deriving DecidableEq, Repr

structure PageResp where
  data : List Nat
  meta : Option Meta
deriving DecidableEq, Repr

/-- `fetchAll` of `build_ratings.js` (lines 60–69) and
`grok_build_ratings.js` (lines 53–63): starting at page 1, concatenate
`r.data` and stop once `r.meta.current_page >= r.meta.last_page`.  The code
dereferences `r.meta` unconditionally, so an absent `meta` is a thrown
`TypeError`, modelled as `none`; `none` also stands for a run of more pages
than the `fuel` bound (the real loop is unbounded).  Returns the
concatenated data and the list of page numbers requested. -/
def fetchAllB (server : Nat → PageResp) : Nat → Nat → Option (List Nat × List Nat)
  | 0, _ => none
  | fuel + 1, p =>
    let r := server p
    match r.meta with
    | none => none
    | some meta =>
      if meta.last_page ≤ meta.current_page then some (r.data, [p])
      else
        match fetchAllB server fuel (p + 1) with
        | none => none
        | some (rest, reqs) => some (r.data ++ rest, p :: reqs)

/-- `fetchAll` of `skills_gen.js` (lines 92–107) and `export_matches.js`:
same loop, but the stop condition is
`!result.meta || result.meta.current_page >= result.meta.last_page`, so an
absent `meta` means "single page, stop" rather than a crash. -/
def fetchAllS (server : Nat → PageResp) : Nat → Nat → Option (List Nat × List Nat)
  | 0, _ => none
  | fuel + 1, p =>
    let r := server p
    match r.meta with
    | none => some (r.data, [p])
    | some meta =>
      if meta.last_page ≤ meta.current_page then some (r.data, [p])
      else
        match fetchAllS server fuel (p + 1) with
        | none => none
        | some (rest, reqs) => some (r.data ++ rest, p :: reqs)

/-! ### Season/event error handling
(`grok_build_ratings.js` `rateSeason` lines 84–171 and `computeTrueSkills`
lines 214–223)

The remote service is abstracted as a `World` giving, for each season, the
outcome of its events fetch; for each event, the outcome of its divisions
fetch; and for each (event, division), the outcome of its matches fetch.
`Except Unit` marks a `FatalError` after the transport's retries. -/

structure Event where
  id : Nat
  start : Nat
deriving DecidableEq, Repr

structure World where
  seasonEvents : Nat → Except Unit (List Event)
  eventDivisions : Nat → Except Unit (List Nat)
  divMatches : Nat → Nat → Except Unit (List Game)

/-- The order on events realised by
`events.sort((a, b) => new Date(a.start) - new Date(b.start))`. -/
def startLE (a b : Event) : Prop := a.start ≤ b.start

instance : DecidableRel startLE := fun a b =>
  inferInstanceAs (Decidable (a.start ≤ b.start))

instance : IsTotal Event startLE where
  total a b := Nat.le_total a.start b.start

instance : IsTrans Event startLE where
  trans _ _ _ h1 h2 := Nat.le_trans h1 h2

/-- The `Promise.all(divisions.map(...))` block: fetch every division's
matches (any failure fails the whole block) and sort each division by
`(round, matchnum)`. -/
def fetchDivMatches (w : World) (ev : Nat) : List Nat → Except Unit (List (List Game))
  | [] => Except.ok []
  | d :: ds =>
    match w.divMatches ev d with
    | Except.error e => Except.error e
    | Except.ok ms =>
      match fetchDivMatches w ev ds with
      | Except.error e => Except.error e
      | Except.ok rest => Except.ok (divisionSort ms :: rest)

/-- The `for (const ev of events)` loop of `rateSeason`: a failing
divisions fetch is swallowed by `catch { continue }` (no log entry); a
failing matches fetch throws and aborts the season.  Because
`teamRatings`/`teamHistory` are module-level maps mutated in place, a
throw does NOT roll back the updates already applied: the `Except.error`
payload carries the belief state as it stands at the moment of the throw
(here, the state accumulated from the earlier events; the aborting event
itself has applied no update yet, since the throw happens while fetching
its matches). -/
def rateEvents (f : RateFn) (w : World) (st : RState) : List Event → Except RState RState
  | [] => Except.ok st
  | ev :: evs =>
    match w.eventDivisions ev.id with
    | Except.error _ => rateEvents f w st evs
    | Except.ok divs =>
      match fetchDivMatches w ev.id divs with
      | Except.error _ => Except.error st
      | Except.ok dss => rateEvents f w (processMatches f st dss.flatten) evs

/-- `rateSeason`: fetch the season's events, sort them by start date, and
run the event loop.  A failing events fetch throws before any update is
applied, so the error payload is the incoming state unchanged. -/
def rateSeasonE (f : RateFn) (w : World) (st : RState) (s : Nat) : Except RState RState :=
  match w.seasonEvents s with
  | Except.error _ => Except.error st
  | Except.ok evs => rateEvents f w st (List.insertionSort startLE evs)

/-- The season loop of `computeTrueSkills`: a season whose `rateSeason`
throws is caught, warned (`console.warn`, recorded here as the season id in
the returned log) and skipped; the loop continues with the next season
from the belief state as the throw left it — the in-place map mutations
of the failed season's completed events persist. -/
def runSeasons (f : RateFn) (w : World) (st : RState) :
    List Nat → RState × List Nat
  | [] => (st, [])
  | s :: ss =>
    match rateSeasonE f w st s with
    | Except.ok st' => runSeasons f w st' ss
    | Except.error st' =>
      let out := runSeasons f w st' ss
      (out.1, s :: out.2)

/-! ### Invariant of the belief store -/

/-- The consistency condition relating the belief store and the history:
for every team, the last appended snapshot carries exactly the stored
(`mu`, `sigma`), and a team with no snapshot has no stored rating. -/
def Inv (st : RState) : Prop :=
  ∀ n, ((st.history n).getLast?).map (fun sn => (sn.mu, sn.sigma))
      = (st.ratings n).map (fun r => (r.mu, r.sigma))

/-- The claim's phrasing: a competitor's current belief equals the
(`mu`, `sigma`) of the last snapshot of its history, or the prior default
belief when the history is empty. -/
def beliefConsistent (st : RState) (n : Nat) : Prop :=
  match (st.history n).getLast? with
  | none => currentBelief st n = defaultRating
  | some sn => (currentBelief st n).mu = sn.mu ∧ (currentBelief st n).sigma = sn.sigma

/-! ### Concrete instances used to witness the theorems -/

/-- A trivial concrete instance of `RateFn` (the identity update), used to
instantiate theorems that hold for every rating function. -/
def idRate : RateFn := fun rR bR _ => (rR, bR)

/-- A world with a single season whose single event's divisions fetch
fails: the event is skipped by `catch { continue }` with nothing logged. -/
def wEvtFail : World where
  seasonEvents := fun _ => Except.ok [⟨1, 0⟩]
  eventDivisions := fun _ => Except.error ()
  divMatches := fun _ _ => Except.ok []

/-- A world where season 5's events fetch fails, event 9's divisions
fetch fails, and event 7 has one division whose matches fetch fails,
while everything else succeeds with empty data. -/
def wMixed : World where
  seasonEvents := fun s => if s = 5 then Except.error () else Except.ok []
  eventDivisions := fun e =>
    if e = 9 then Except.error ()
    else if e = 7 then Except.ok [0]
    else Except.ok []
  divMatches := fun e _ => if e = 7 then Except.error () else Except.ok []

/-! ## Theorems -/

/-- C4: against the response sequence [429, 429, 200] the transport retry
loop of `apiFetch` returns the 200 payload after exactly 3 attempts when
the retry cap is at least 2, fails with the fatal `API 429` error after
exactly 2 attempts when the cap is 1, and any non-success status that is
neither rate-limit (429) nor a server error (>= 500) fails immediately
after a single attempt, whatever responses would follow. -/
theorem apiFetch_retry_behavior (cap : Nat) (hcap : 2 ≤ cap)
    (p s b : Nat) (rest : List Resp)
    (hs : isOk s = false) (hr : retryable s = false) :
    apiFetch cap [⟨429, 0⟩, ⟨429, 0⟩, ⟨200, p⟩] = (Except.ok p, 3)
    ∧ apiFetch 1 [⟨429, 0⟩, ⟨429, 0⟩, ⟨200, p⟩] = (Except.error 429, 2)
    ∧ apiFetch cap (⟨s, b⟩ :: rest) = (Except.error s, 1) := by
  have h0 : 0 < cap := by omega
  have h1 : 1 < cap := by omega
  refine ⟨?_, ?_, ?_⟩
  · simp [apiFetch, apiFetchGo, isOk, retryable, h0, h1]
  · simp [apiFetch, apiFetchGo, isOk, retryable]
  · simp [apiFetch, apiFetchGo, hs, hr]

/-- Witness for C4 at cap 2, payload 7, and the non-retryable status 404. -/
theorem apiFetch_retry_behavior_witness :
    apiFetch 2 [⟨429, 0⟩, ⟨429, 0⟩, ⟨200, 7⟩] = (Except.ok 7, 3)
    ∧ apiFetch 1 [⟨429, 0⟩, ⟨429, 0⟩, ⟨200, 7⟩] = (Except.error 429, 2)
    ∧ apiFetch 2 [⟨404, 9⟩] = (Except.error 404, 1) :=
  apiFetch_retry_behavior 2 (by decide) 7 404 9 [] (by decide) (by decide)

/-- C6: when the endpoint reports `last_page = 3` on each of its three
pages, the paginator of `build_ratings.js`/`grok_build_ratings.js` returns
the concatenation of the three pages' `data` arrays in page order, whose
length is the sum of the page item counts, and requests exactly the page
numbers 1, 2, 3 — in particular no fourth page. -/
theorem fetchAll_three_pages (server : Nat → PageResp) (fuel : Nat)
    (hf : 3 ≤ fuel)
    (hm : ∀ i, 1 ≤ i → i ≤ 3 → (server i).meta = some ⟨i, 3⟩) :
    fetchAllB server fuel 1
      = some ((server 1).data ++ ((server 2).data ++ (server 3).data), [1, 2, 3])
    ∧ ((server 1).data ++ ((server 2).data ++ (server 3).data)).length
      = (server 1).data.length + ((server 2).data.length + (server 3).data.length)
    ∧ (4 : Nat) ∉ [1, 2, 3] := by
  obtain ⟨k, rfl⟩ : ∃ k, fuel = k + 3 := ⟨fuel - 3, by omega⟩
  refine ⟨?_, by simp, by decide⟩
  have h1 := hm 1 (by decide) (by decide)
  have h2 := hm 2 (by decide) (by decide)
  have h3 := hm 3 (by decide) (by decide)
  show fetchAllB server (k + 2 + 1) 1 = _
  rw [fetchAllB, h1]
  show (if (3 : Nat) ≤ 1 then _ else _) = _
  rw [if_neg (by decide)]
  show (match fetchAllB server (k + 1 + 1) 2 with
        | none => none
        | some (rest, reqs) => some ((server 1).data ++ rest, 1 :: reqs)) = _
  rw [fetchAllB, h2]
  show (match (if (3 : Nat) ≤ 2 then _ else _ : Option (List Nat × List Nat)) with
        | none => none
        | some (rest, reqs) => some ((server 1).data ++ rest, 1 :: reqs)) = _
  rw [if_neg (by decide)]
  rw [fetchAllB, h3]
  simp

/-- Witness for C6: a concrete three-page server with fuel 3. -/
theorem fetchAll_three_pages_witness :
    fetchAllB (fun p => ⟨[p], some ⟨p, 3⟩⟩) 3 1 = some ([1] ++ ([2] ++ [3]), [1, 2, 3])
    ∧ (([1] ++ ([2] ++ [3])) : List Nat).length = 1 + (1 + 1)
    ∧ (4 : Nat) ∉ [1, 2, 3] :=
  fetchAll_three_pages (fun p => ⟨[p], some ⟨p, 3⟩⟩) 3 (by decide)
    (fun _ _ _ => rfl)

/-- C7 counterexample: the paginator of `build_ratings.js` /
`grok_build_ratings.js` does not treat an absent `meta` as "single page,
stop": on a response with `data = [7]` and no pagination metadata it
crashes (`r.meta.current_page` on `undefined`) instead of returning the
page's data. -/
theorem fetchAllB_absent_meta_crashes :
    fetchAllB (fun _ => ⟨[7], none⟩) 5 1 = none
    ∧ fetchAllB (fun _ => ⟨[7], none⟩) 5 1 ≠ some ([7], [1]) := by
  exact ⟨rfl, by decide⟩

/-- C7 amended: only the paginator of `skills_gen.js`/`export_matches.js`
treats a response with absent pagination metadata as a single page,
returning that page's data after that single request; the paginator of
`build_ratings.js`/`grok_build_ratings.js` instead fails on such a
response (the thrown `TypeError`, modelled as `none`). -/
theorem fetchAll_absent_meta (server : Nat → PageResp) (fuel p : Nat)
    (h : (server p).meta = none) :
    fetchAllS server (fuel + 1) p = some ((server p).data, [p])
    ∧ fetchAllB server (fuel + 1) p = none := by
  constructor
  · rw [fetchAllS, h]
  · rw [fetchAllB, h]

/-- Witness for C7's amended theorem at a concrete metadata-free server. -/
theorem fetchAll_absent_meta_witness :
    fetchAllS (fun _ => ⟨[7], none⟩) 5 1 = some ([7], [1])
    ∧ fetchAllB (fun _ => ⟨[7], none⟩) 5 1 = none :=
  fetchAll_absent_meta (fun _ => ⟨[7], none⟩) 4 1 rfl

/-- C8: the rank array handed to `env.rate` has one rank per side, the
higher-scoring side gets the strictly better (smaller) rank, and equal
scores give both sides the same rank — a symmetric draw with no
asymmetric tie-break. -/
theorem ranks_winner_better (r b : Int) :
    (ranks r b).length = 2
    ∧ (b < r → (ranks r b).getD 0 9 < (ranks r b).getD 1 9)
    ∧ (r < b → (ranks r b).getD 1 9 < (ranks r b).getD 0 9)
    ∧ (r = b → (ranks r b).getD 0 9 = (ranks r b).getD 1 9) := by
  unfold ranks
  rcases lt_trichotomy r b with h | h | h
  · rw [if_neg (by omega), if_pos h]
    exact ⟨rfl, fun hc => absurd h (by omega), fun _ => by decide, fun hc => absurd h (by omega)⟩
  · rw [if_neg (by omega), if_neg (by omega)]
    exact ⟨rfl, fun hc => absurd h (by omega), fun hc => absurd h (by omega), fun _ => rfl⟩
  · rw [if_pos h]
    exact ⟨rfl, fun _ => by decide, fun hc => absurd h (by omega), fun hc => absurd h (by omega)⟩

/-- Witness for C8 at the score pairs (5, 3), (3, 5) and (4, 4). -/
theorem ranks_winner_better_witness :
    ((ranks 5 3).getD 0 9 < (ranks 5 3).getD 1 9)
    ∧ ((ranks 3 5).getD 1 9 < (ranks 3 5).getD 0 9)
    ∧ ((ranks 4 4).getD 0 9 = (ranks 4 4).getD 1 9) :=
  ⟨(ranks_winner_better 5 3).2.1 (by decide),
   (ranks_winner_better 3 5).2.2.1 (by decide),
   (ranks_winner_better 4 4).2.2.2 rfl⟩

/-- C2: the rating update is a pure function of the current belief state
and the match: runs of the engine over equal ordered match streams from
equal states, with the same model parameters (the same `RateFn`), produce
identical results — both for a single `doMatch` step and for the full
fold, hence identical final beliefs and identical full histories. -/
theorem processMatches_deterministic (f : RateFn) (st1 st2 : RState)
    (ms1 ms2 : List Game) (hst : st1 = st2) (hms : ms1 = ms2) :
    processMatches f st1 ms1 = processMatches f st2 ms2
    ∧ ∀ m : Game, doMatch f st1 m = doMatch f st2 m := by
  subst hst; subst hms; exact ⟨rfl, fun _ => rfl⟩

/-- Witness for C2 at a concrete state, stream and rating function. -/
theorem processMatches_deterministic_witness :
    processMatches idRate initState [⟨1, 1, 1, 5, []⟩]
      = processMatches idRate initState [⟨1, 1, 1, 5, []⟩]
    ∧ ∀ m : Game, doMatch idRate initState m = doMatch idRate initState m :=
  processMatches_deterministic idRate initState initState
    [⟨1, 1, 1, 5, []⟩] [⟨1, 1, 1, 5, []⟩] rfl rfl

/-- A match failing the validity filter leaves the engine state untouched. -/
theorem doMatch_skip (f : RateFn) (st : RState) (m : Game)
    (h : validGame m = false) : doMatch f st m = st := by
  unfold validGame at h
  unfold doMatch
  cases hr : findAlliance m "red" with
  | none => rfl
  | some red =>
    cases hb : findAlliance m "blue" with
    | none => rfl
    | some blue =>
      rw [hr, hb] at h
      rcases hA : allianceTeams red with _ | ⟨a1, _ | ⟨a2, _ | ⟨a3, t1⟩⟩⟩ <;>
        rcases hB : allianceTeams blue with _ | ⟨b1, _ | ⟨b2, _ | ⟨b3, t2⟩⟩⟩ <;>
          simp_all

/-- C3: a match missing its red or blue alliance, or whose red or blue
side does not have exactly two resolvable competitor links (one- and
three-competitor sides included), is discarded before any rating update:
it changes no competitor's belief and no history, and removing it from the
processed stream changes nothing. -/
theorem invalid_match_discarded (f : RateFn) (st : RState) (m : Game)
    (ms1 ms2 : List Game) (h : validGame m = false) :
    doMatch f st m = st
    ∧ processMatches f st (ms1 ++ m :: ms2) = processMatches f st (ms1 ++ ms2) := by
  refine ⟨doMatch_skip f st m h, ?_⟩
  unfold processMatches
  rw [List.foldl_append, List.foldl_append, List.foldl_cons,
    doMatch_skip f _ m h]

/-- Witness for C3: a match whose red side has a single resolvable team
(and whose blue side is fine) is discarded. -/
theorem invalid_match_discarded_witness :
    doMatch idRate initState
      ⟨1, 1, 1, 5, [⟨"red", [some 10], 4⟩, ⟨"blue", [some 11, some 12], 3⟩]⟩
      = initState
    ∧ processMatches idRate initState
        ([] ++ ⟨1, 1, 1, 5, [⟨"red", [some 10], 4⟩, ⟨"blue", [some 11, some 12], 3⟩]⟩ :: [])
      = processMatches idRate initState ([] ++ []) :=
  invalid_match_discarded idRate initState _ [] [] (by decide)

/-- `setRatings` never touches the `rated` counter. -/
theorem setRatings_rated (ups : List (Nat × Rating)) (st : RState) :
    (setRatings st ups).rated = st.rated := by
  induction ups generalizing st with
  | nil => rfl
  | cons u us ih => exact ih _

/-- `pushHist` never touches the `rated` counter. -/
theorem pushHist_rated (ups : List (Nat × Rating)) (st : RState) (mid t : Nat) :
    (pushHist st mid t ups).rated = st.rated := by
  induction ups generalizing st with
  | nil => rfl
  | cons u us ih => exact ih _

/-- C10: a match whose red alliance lists three competitor entries of
which exactly two carry a resolvable team link (blue having exactly two
resolvable links as well) passes the validity filter — only resolvable
links are counted — and is rated: the rated counter advances. -/
theorem three_entry_side_counted_by_links (f : RateFn) (st : RState) (m : Game)
    (red blue : Alliance)
    (hr : findAlliance m "red" = some red)
    (hb : findAlliance m "blue" = some blue)
    (h3 : red.teams.length = 3)
    (hr2 : (allianceTeams red).length = 2)
    (hb2 : (allianceTeams blue).length = 2) :
    validGame m = true ∧ (doMatch f st m).rated = st.rated + 1 := by
  obtain ⟨r1, r2, hA⟩ := List.length_eq_two.mp hr2
  obtain ⟨b1, b2, hB⟩ := List.length_eq_two.mp hb2
  constructor
  · simp only [validGame, hr, hb, hA, hB]
    rfl
  · simp only [doMatch, hr, hb, hA, hB]
    show (rateUpdate f st m red blue r1 r2 b1 b2).rated = st.rated + 1
    simp [rateUpdate, pushHist_rated, setRatings_rated]

/-- Witness for C10: red side `[some 1, none, some 2]` (three entries, two
resolvable), blue side `[some 3, some 4]`. -/
theorem three_entry_side_counted_by_links_witness :
    validGame ⟨1, 1, 1, 5,
        [⟨"red", [some 1, none, some 2], 4⟩, ⟨"blue", [some 3, some 4], 3⟩]⟩ = true
    ∧ (doMatch idRate initState
        ⟨1, 1, 1, 5,
          [⟨"red", [some 1, none, some 2], 4⟩, ⟨"blue", [some 3, some 4], 3⟩]⟩).rated
      = initState.rated + 1 :=
  three_entry_side_counted_by_links idRate initState _
    ⟨"red", [some 1, none, some 2], 4⟩ ⟨"blue", [some 3, some 4], 3⟩
    (by decide) (by decide) (by decide) (by decide) (by decide)

/-- C1 counterexample: the match stream handed to the rating update is not
ordered by scheduled time.  Within one division, the sort key is
`(round, matchnum)` only: a round-1 match scheduled at time 100 is emitted
before a round-2 match scheduled at time 50.  Across the divisions of one
event, `flat()` naively concatenates: a division whose only match is
scheduled at 100 precedes a division whose only match is scheduled at 50. -/
theorem harvester_not_time_ordered :
    divisionSort [⟨1, 1, 1, 100, []⟩, ⟨2, 2, 1, 50, []⟩]
      = [⟨1, 1, 1, 100, []⟩, ⟨2, 2, 1, 50, []⟩]
    ∧ ¬ schedLE ⟨1, 1, 1, 100, []⟩ ⟨2, 2, 1, 50, []⟩
    ∧ eventMatches [[⟨3, 1, 1, 100, []⟩], [⟨4, 1, 1, 50, []⟩]]
      = [⟨3, 1, 1, 100, []⟩, ⟨4, 1, 1, 50, []⟩]
    ∧ ¬ schedLE ⟨3, 1, 1, 100, []⟩ ⟨4, 1, 1, 50, []⟩ := by
  refine ⟨by decide, ?_, by decide, ?_⟩
  · show ¬ (100 : Nat) ≤ 50
    decide
  · show ¬ (100 : Nat) ≤ 50
    decide

/-- C1 amended: for every season harvested, each division's match list is
sorted by (round ascending, match-sequence ascending) — scheduled time is
not a sort key — and is a permutation of that division's fetched matches;
the event-level stream is the plain concatenation of its divisions' sorted
lists (a permutation of all the divisions' matches, not a chronological
merge), and events are iterated in event start-date order. -/
theorem harvester_order_amended (ds : List Game) (dss : List (List Game)) :
    (divisionSort ds).Sorted roundSeqLE
    ∧ (divisionSort ds).Perm ds
    ∧ (eventMatches dss).Perm dss.flatten := by
  refine ⟨List.sorted_insertionSort roundSeqLE ds,
    List.perm_insertionSort roundSeqLE ds, ?_⟩
  induction dss with
  | nil => exact List.Perm.refl _
  | cons d rest ih =>
    show (divisionSort d ++ (rest.map divisionSort).flatten).Perm (d ++ rest.flatten)
    exact (List.perm_insertionSort roundSeqLE d).append ih

/-- A pending history push commutes past the whole block of ratings `set`s
(they touch different maps). -/
theorem pushOne_setRatings (mid t : Nat) (ups : List (Nat × Rating))
    (st : RState) (u : Nat × Rating) :
    pushOne mid t (setRatings st ups) u = setRatings (pushOne mid t st u) ups := by
  induction ups generalizing st with
  | nil => rfl
  | cons v vs ih =>
    show pushOne mid t (setRatings (setOne st v) vs) u
        = setRatings (setOne (pushOne mid t st u) v) vs
    rw [ih]
    rfl

/-- The code's set-all-then-push-all sequence equals the fused fold of
per-participant set-then-push steps. -/
theorem pushHist_setRatings_eq_fold (mid t : Nat) (ups : List (Nat × Rating))
    (st : RState) :
    pushHist (setRatings st ups) mid t ups = ups.foldl (applyOne mid t) st := by
  induction ups generalizing st with
  | nil => rfl
  | cons u us ih =>
    show pushHist (pushOne mid t (setRatings (setOne st u) us) u) mid t us
        = us.foldl (applyOne mid t) (applyOne mid t st u)
    rw [pushOne_setRatings]
    exact ih (applyOne mid t st u)

/-- One fused set-then-push step preserves the store/history consistency
invariant. -/
theorem applyOne_inv (mid t : Nat) (s : RState) (u : Nat × Rating)
    (h : Inv s) : Inv (applyOne mid t s u) := by
  intro n
  show ((histPush (setOne s u).history u.1 ⟨mid, t, u.2.mu, u.2.sigma⟩ n).getLast?).map _
      = ((mapSet s.ratings u.1 u.2 n).map _)
  unfold histPush mapSet setOne
  by_cases hn : n = u.1
  · subst hn
    simp [List.getLast?_concat]
  · simp only [if_neg hn]
    exact h n

/-- The fused fold preserves the invariant. -/
theorem foldl_applyOne_inv (mid t : Nat) (ups : List (Nat × Rating))
    (st : RState) (h : Inv st) : Inv (ups.foldl (applyOne mid t) st) := by
  induction ups generalizing st with
  | nil => exact h
  | cons u us ih => exact ih _ (applyOne_inv mid t st u h)

/-- Changing only the `rated` counter preserves the invariant. -/
theorem inv_with_rated (st : RState) (k : Nat) (h : Inv st) :
    Inv { st with rated := k } := h

/-- The guarded rating update preserves the invariant. -/
theorem rateUpdate_inv (f : RateFn) (st : RState) (m : Game)
    (red blue : Alliance) (r1 r2 b1 b2 : Nat) (h : Inv st) :
    Inv (rateUpdate f st m red blue r1 r2 b1 b2) := by
  simp only [rateUpdate]
  exact inv_with_rated _ _
    (by rw [pushHist_setRatings_eq_fold]; exact foldl_applyOne_inv _ _ _ _ h)

/-- One match through the engine preserves the invariant. -/
theorem doMatch_inv (f : RateFn) (st : RState) (m : Game) (h : Inv st) :
    Inv (doMatch f st m) := by
  unfold doMatch
  cases hr : findAlliance m "red" with
  | none => exact h
  | some red =>
    cases hb : findAlliance m "blue" with
    | none => exact h
    | some blue =>
      show Inv (match allianceTeams red, allianceTeams blue with
        | [r1, r2], [b1, b2] => rateUpdate f st m red blue r1 r2 b1 b2
        | _, _ => st)
      rcases hA : allianceTeams red with _ | ⟨a1, _ | ⟨a2, _ | ⟨a3, t1⟩⟩⟩ <;>
        rcases hB : allianceTeams blue with _ | ⟨b1, _ | ⟨b2, _ | ⟨b3, t2⟩⟩⟩ <;>
          first
            | exact h
            | exact rateUpdate_inv _ _ _ _ _ _ _ _ _ h

/-- The whole fold over a match stream preserves the invariant. -/
theorem processMatches_inv (f : RateFn) (ms : List Game) (st : RState)
    (h : Inv st) : Inv (processMatches f st ms) := by
  induction ms generalizing st with
  | nil => exact h
  | cons m rest ih => exact ih _ (doMatch_inv f st m h)

/-- The invariant yields the claim's phrasing about the current belief. -/
theorem inv_beliefConsistent (st : RState) (h : Inv st) (n : Nat) :
    beliefConsistent st n := by
  unfold beliefConsistent
  have hn := h n
  split
  case h_1 heq =>
    rw [heq] at hn
    cases hR : st.ratings n with
    | none => simp [currentBelief, hR]
    | some r => rw [hR] at hn; exact Option.noConfusion hn
  case h_2 sn heq =>
    rw [heq] at hn
    cases hR : st.ratings n with
    | none => rw [hR] at hn; exact Option.noConfusion hn
    | some r =>
      rw [hR] at hn
      have h2 : (sn.mu, sn.sigma) = (r.mu, r.sigma) := Option.some.inj hn
      have hmu : sn.mu = r.mu := congrArg Prod.fst h2
      have hsig : sn.sigma = r.sigma := congrArg Prod.snd h2
      exact ⟨by simp [currentBelief, hR, hmu], by simp [currentBelief, hR, hsig]⟩

/-- C9: at every point during processing — i.e. after the engine has
consumed any match stream `ms` from the initial state — each competitor's
current belief (`teamRatings.get(n) || new Rating()`) equals the
(`mu`, `sigma`) of the last snapshot appended to that competitor's
history, or the prior default belief when the competitor has no snapshot
yet. -/
theorem belief_matches_last_snapshot (f : RateFn) (ms : List Game) (n : Nat) :
    beliefConsistent (processMatches f initState ms) n := by
  refine inv_beliefConsistent _ ?_ n
  refine processMatches_inv f ms initState ?_
  intro k
  rfl

/-- An event whose divisions fetch fails is skipped by
`catch { continue }`: the season's outcome is as if the event were absent. -/
theorem rateEvents_skip (f : RateFn) (w : World) (e : Event)
    (he : w.eventDivisions e.id = Except.error ())
    (evs1 evs2 : List Event) (st : RState) :
    rateEvents f w st (evs1 ++ e :: evs2) = rateEvents f w st (evs1 ++ evs2) := by
  induction evs1 generalizing st with
  | nil =>
    simp only [List.nil_append]
    rw [rateEvents, he]
  | cons ev rest ih =>
    simp only [List.cons_append]
    rw [rateEvents, rateEvents]
    cases w.eventDivisions ev.id with
    | error u => exact ih st
    | ok divs =>
      show (match fetchDivMatches w ev.id divs with
            | Except.error _ => Except.error st
            | Except.ok dss =>
              rateEvents f w (processMatches f st dss.flatten) (rest ++ e :: evs2))
          = (match fetchDivMatches w ev.id divs with
            | Except.error _ => Except.error st
            | Except.ok dss =>
              rateEvents f w (processMatches f st dss.flatten) (rest ++ evs2))
      cases fetchDivMatches w ev.id divs with
      | error u => rfl
      | ok dss => exact ih _

/-- A season whose `rateSeason` fails without having applied any update
(the error payload is the incoming state, for every incoming state — e.g.
its events fetch fails) is warned and skipped: the final beliefs are those
of the run without it, and its id appears in the warning log. -/
theorem runSeasons_skip (f : RateFn) (w : World) (s : Nat)
    (hs : ∀ st' : RState, rateSeasonE f w st' s = Except.error st')
    (ss1 ss2 : List Nat) (st : RState) :
    (runSeasons f w st (ss1 ++ s :: ss2)).1 = (runSeasons f w st (ss1 ++ ss2)).1
    ∧ s ∈ (runSeasons f w st (ss1 ++ s :: ss2)).2 := by
  induction ss1 generalizing st with
  | nil =>
    simp only [List.nil_append]
    rw [runSeasons, hs st]
    exact ⟨rfl, List.mem_cons_self _ _⟩
  | cons a rest ih =>
    simp only [List.cons_append]
    rw [runSeasons, runSeasons]
    cases rateSeasonE f w st a with
    | ok st' => exact ih st'
    | error st' => exact ⟨(ih st').1, List.mem_cons_of_mem a (ih st').2⟩

/-- A failing match fetch aborts the remainder of its season: the events
after the aborting one are never processed, and the updates the earlier
events already applied (state `st1`) persist in the error payload — the
in-place maps are not rolled back. -/
theorem rateEvents_abort (f : RateFn) (w : World) (e : Event) (divs : List Nat)
    (hd : w.eventDivisions e.id = Except.ok divs)
    (hf : fetchDivMatches w e.id divs = Except.error ())
    (evs1 evs2 : List Event) (st1 : RState) :
    ∀ st : RState, rateEvents f w st evs1 = Except.ok st1 →
      rateEvents f w st (evs1 ++ e :: evs2) = Except.error st1 := by
  induction evs1 with
  | nil =>
    intro st hacc
    have hst : st = st1 := Except.ok.inj hacc
    subst hst
    simp only [List.nil_append]
    rw [rateEvents, hd]
    show (match fetchDivMatches w e.id divs with
          | Except.error _ => Except.error st
          | Except.ok dss => rateEvents f w (processMatches f st dss.flatten) evs2)
        = Except.error st
    rw [hf]
  | cons ev rest ih =>
    intro st hacc
    rw [rateEvents] at hacc
    simp only [List.cons_append]
    rw [rateEvents]
    cases hD : w.eventDivisions ev.id with
    | error u =>
      rw [hD] at hacc
      exact ih st hacc
    | ok divs' =>
      rw [hD] at hacc
      replace hacc : (match fetchDivMatches w ev.id divs' with
          | Except.error _ => Except.error st
          | Except.ok dss => rateEvents f w (processMatches f st dss.flatten) rest)
          = Except.ok st1 := hacc
      show (match fetchDivMatches w ev.id divs' with
            | Except.error _ => Except.error st
            | Except.ok dss =>
              rateEvents f w (processMatches f st dss.flatten) (rest ++ e :: evs2))
          = Except.error st1
      cases hF : fetchDivMatches w ev.id divs' with
      | error u =>
        rw [hF] at hacc
        exact Except.noConfusion hacc
      | ok dss =>
        rw [hF] at hacc
        exact ih _ hacc

/-- A season that throws mid-way is caught and warned, and the run
continues with the next seasons from the state the throw left behind (the
partial updates persist), not from the pre-season state. -/
theorem runSeasons_catch (f : RateFn) (w : World) (st0 st2 : RState)
    (s : Nat) (ss : List Nat)
    (herr : rateSeasonE f w st0 s = Except.error st2) :
    runSeasons f w st0 (s :: ss)
      = ((runSeasons f w st2 ss).1, s :: (runSeasons f w st2 ss).2) := by
  rw [runSeasons, herr]

/-- C5 counterexample: in the world `wEvtFail` the only event's divisions
fetch fails with a fatal error, the branch contributes zero matches and
the run completes — but nothing is logged: the `catch { continue }` at the
event level of `rateSeason` swallows the failure silently, so the claim's
"is logged" is false for event branches. -/
theorem event_failure_not_logged :
    wEvtFail.eventDivisions 1 = Except.error ()
    ∧ rateSeasonE idRate wEvtFail initState 1 = Except.ok initState
    ∧ runSeasons idRate wEvtFail initState [1] = (initState, []) :=
  ⟨rfl, rfl, rfl⟩

/-- C5 amended: a *season* whose sub-fetch fails before it applies any
update (its events fetch fails) contributes zero matches, is logged (its
id appears in the warning log) and does not fail the run — the remaining
seasons still complete with the same final beliefs as if that season were
absent.  An *event* whose divisions fetch fails is skipped with zero
contribution but silently (no log entry; see the counterexample).  An
event whose match fetch fails aborts the remainder of its season — its
sibling events are not processed — while the updates already applied by
the season's earlier events persist (the in-place maps are not rolled
back); the season is then caught, logged, and the run continues with the
next seasons from that partially-updated state. -/
theorem branch_failure_amended (f : RateFn) (w : World) (st st1 st2 st3 : RState)
    (s s2 : Nat) (ss1 ss2 ss : List Nat)
    (e e2 : Event) (evs1 evs2 : List Event) (divs : List Nat)
    (hs : ∀ st' : RState, rateSeasonE f w st' s = Except.error st')
    (he : w.eventDivisions e.id = Except.error ())
    (hd : w.eventDivisions e2.id = Except.ok divs)
    (hf : fetchDivMatches w e2.id divs = Except.error ())
    (hacc : rateEvents f w st evs1 = Except.ok st1)
    (herr : rateSeasonE f w st3 s2 = Except.error st2) :
    ((runSeasons f w st (ss1 ++ s :: ss2)).1 = (runSeasons f w st (ss1 ++ ss2)).1
      ∧ s ∈ (runSeasons f w st (ss1 ++ s :: ss2)).2)
    ∧ rateEvents f w st (evs1 ++ e :: evs2) = rateEvents f w st (evs1 ++ evs2)
    ∧ rateEvents f w st (evs1 ++ e2 :: evs2) = Except.error st1
    ∧ runSeasons f w st3 (s2 :: ss)
      = ((runSeasons f w st2 ss).1, s2 :: (runSeasons f w st2 ss).2) :=
  ⟨runSeasons_skip f w s hs ss1 ss2 st,
   rateEvents_skip f w e he evs1 evs2 st,
   rateEvents_abort f w e2 divs hd hf evs1 evs2 st1 st hacc,
   runSeasons_catch f w st3 st2 s2 ss herr⟩

/-- Witness for C5's amended theorem in the world `wMixed`: season 5 fails
between seasons 4 and 6, event 9's divisions fetch fails after event 2,
and event 7's match fetch fails after event 2. -/
theorem branch_failure_amended_witness :
    ((runSeasons idRate wMixed initState ([4] ++ 5 :: [6])).1
        = (runSeasons idRate wMixed initState ([4] ++ [6])).1
      ∧ 5 ∈ (runSeasons idRate wMixed initState ([4] ++ 5 :: [6])).2)
    ∧ rateEvents idRate wMixed initState ([⟨2, 0⟩] ++ ⟨9, 0⟩ :: [])
      = rateEvents idRate wMixed initState ([⟨2, 0⟩] ++ [])
    ∧ rateEvents idRate wMixed initState ([⟨2, 0⟩] ++ ⟨7, 0⟩ :: [])
      = Except.error initState
    ∧ runSeasons idRate wMixed initState (5 :: [6])
      = ((runSeasons idRate wMixed initState [6]).1,
          5 :: (runSeasons idRate wMixed initState [6]).2) :=
  branch_failure_amended idRate wMixed initState initState initState initState
    5 5 [4] [6] [6] ⟨9, 0⟩ ⟨7, 0⟩ [⟨2, 0⟩] [] [0]
    (fun _ => rfl) rfl rfl rfl rfl rfl

end VRC
